import Mathlib

/-!
Shallow embedding of the GitHub repository-context MCP server
(`src/index.ts`): the remote content client (`getRepoContents`,
`getFileContent`), the recursive tree walker (`getAllFiles`), the
filter/truncate/fetch/render pipeline of the `get-repo-context` handler, and
the `get-file-content` / `get-repo-structure` handlers.

Remote calls are modelled explicitly: the content client takes the remote's
behaviour as a function argument, and the walker runs over a tree-shaped model
of the remote repository in which each node records whether its listing call
succeeds.
-/

namespace GhMcp

/-- One item of a remote contents-API response, as consumed by the walker:
the `path` and `type` fields of a GitHub contents entry. -/
structure RawEntry where
  path : String
  type : String
  deriving DecidableEq, Repr

/-- A record accumulated by `getAllFiles`: `{ path: item.path, type: 'file' }`
(src/index.ts:66-69). -/
structure FlatFileRecord where
  path : String
  type : String
  deriving DecidableEq, Repr

/-- The body of an `octokit.repos.getContent` response: an array (directory
listing), a single object carrying a `type` field (and possibly `content` and
`encoding` fields), or some other shape. -/
inductive RemoteData where
  | listing (entries : List RawEntry)
  | entity (e : RawEntry) (content encoding : Option String)
  | nonEntity
  deriving DecidableEq, Repr

/-- Outcome of one `octokit.repos.getContent` call: a response body, or a
thrown error (network/API failure). -/
inductive RemoteResult where
  | ok (d : RemoteData)
  | err
  deriving DecidableEq, Repr

/-- `getRepoContents` (src/index.ts:18-37): return a listing verbatim, wrap a
single `type`-carrying object into a one-element array, return `[]` for any
other body, and (soft failure, the `catch` branch) return `[]` when the call
throws. -/
def getRepoContents (remote : String → String → String → RemoteResult)
    (owner repo path : String) : List RawEntry :=
  match remote owner repo path with
  | .ok (.listing es) => es
  | .ok (.entity e _ _) => [e]
  | .ok .nonEntity => []
  | .err => []

/-- `getFileContent` (src/index.ts:39-58): when the response body has both a
`content` and an `encoding` field and the encoding is `base64`, decode the
content; in every other case (including a thrown call, the `catch` branch)
return `null`. The base64/UTF-8 decoding step
`Buffer.from(content,'base64').toString('utf-8')` is abstracted as the
function argument `decode`. -/
def getFileContent (decode : String → String)
    (remote : String → String → String → RemoteResult)
    (owner repo path : String) : Option String :=
  match remote owner repo path with
  | .ok (.entity _ (some c) (some enc)) =>
    if enc == "base64" then some (decode c) else none
  | _ => none

/-- A tree-shaped model of the remote repository seen by the walker: each node
carries the `path` and `type` strings of its listing entry, whether the
listing call for the node's own path succeeds (`ok = false` models
`getRepoContents` hitting its `catch` branch and returning `[]`), and its
children (the listing returned for its path when the call succeeds). -/
inductive GTree where
  | node (path type : String) (ok : Bool) (children : List GTree)

/-- The `path` field of a tree node. -/
def GTree.path : GTree → String
  | .node p _ _ _ => p

/-- The `type` field of a tree node. -/
def GTree.type : GTree → String
  | .node _ t _ _ => t

mutual

/-- One iteration of the `for` loop of `getAllFiles` (src/index.ts:64-74) on a
single listing item, with the recursive call's `getRepoContents` resolved
against the tree: a `file`-typed item is appended as a `FlatFileRecord`, a
`dir`-typed item contributes its recursive walk (empty when its listing call
fails), and an item of any other type is dropped. -/
def walkEntry : GTree → List FlatFileRecord
  | .node p t ok cs =>
    if t == "file" then [⟨p, "file"⟩]
    else if t == "dir" then (if ok then walkItems cs else [])
    else []

/-- The `for` loop of `getAllFiles` over a whole directory listing, in listing
order. -/
def walkItems : List GTree → List FlatFileRecord
  | [] => []
  | c :: cs => walkEntry c ++ walkItems cs

end

/-- `getAllFiles owner repo ""` (src/index.ts:60-77), run over the root
listing of the repository. -/
def getAllFiles (root : List GTree) : List FlatFileRecord :=
  walkItems root

/-- Does the character list `pat` occur at the start of `s`? -/
def hasPre : List Char → List Char → Bool
  | _, [] => true
  | [], _ :: _ => false
  | a :: s, b :: pat => a == b && hasPre s pat

/-- Does the character list `pat` occur anywhere in `s`? -/
def hasSub : List Char → List Char → Bool
  | [], pat => pat.isEmpty
  | s@(_ :: rest), pat => hasPre s pat || hasSub rest pat

/-- JS `s.includes(pat)` (substring containment), as used by
`file.path.includes(excludePath)` (src/index.ts:102). -/
def includesStr (s pat : String) : Bool :=
  hasSub s.data pat.data

/-- JS `String.prototype.split('.')` on character lists: split at every `'.'`,
keeping empty segments; the empty string yields `[[]]`. -/
def splitDots : List Char → List (List Char)
  | [] => [[]]
  | c :: cs =>
    if c = '.' then [] :: splitDots cs
    else
      match splitDots cs with
      | [] => [[c]]
      | s :: ss => (c :: s) :: ss

/-- `file.path.split('.').pop() || ''` (src/index.ts:107): the final
dot-separated segment of the path, with `''` substituted when the popped value
is empty or missing. -/
def extOf (p : String) : String :=
  ⟨(splitDots p.data).getLastD []⟩

/-- The filter callback of the get-repo-context handler (src/index.ts:101-112):
reject a path containing any of `excludePaths` as a substring; otherwise, when
`fileExtensions` is non-empty, keep exactly the paths whose `extOf` is listed;
otherwise keep everything. -/
def keepFile (excludePaths fileExtensions : List String) (path : String) : Bool :=
  if excludePaths.any (fun e => includesStr path e) then false
  else if 0 < fileExtensions.length then fileExtensions.contains (extOf path)
  else true

/-- The filter-and-truncate step of the get-repo-context handler
(src/index.ts:101-114): filter with `keepFile`, then `slice(0, maxFiles)`,
which for `maxFiles = N ≥ 0` keeps the first `N` elements. -/
def selectFiles (files : List FlatFileRecord) (maxFiles : Nat)
    (fileExtensions excludePaths : List String) : List FlatFileRecord :=
  (files.filter fun f => keepFile excludePaths fileExtensions f.path).take maxFiles

/-- A path paired with its fetched content; `none` models `null`. -/
structure FileContentRecord where
  path : String
  content : Option String
  deriving DecidableEq, Repr

/-- The content-fetching loop of the get-repo-context handler
(src/index.ts:117-126): for each selected record whose `type` is `file`, pair
its path with the fetched content (`fetch` stands for
`getFileContent owner repo ·`). -/
def fetchContents (fetch : String → Option String)
    (files : List FlatFileRecord) : List FileContentRecord :=
  (files.filter fun f => f.type == "file").map fun f => ⟨f.path, fetch f.path⟩

/-- The records surviving `filter(file => file.content !== null)`
(src/index.ts:128-129); exactly these are rendered into fenced blocks. -/
def renderedRecords (fetch : String → Option String)
    (files : List FlatFileRecord) : List FileContentRecord :=
  (fetchContents fetch files).filter fun r => r.content.isSome

/-- One rendered block (src/index.ts:130). -/
def renderBlock (r : FileContentRecord) : String :=
  "File: " ++ r.path ++ "\n\n```\n" ++ r.content.getD "" ++ "\n```\n\n"

/-- The joined document body of get-repo-context (src/index.ts:128-131). -/
def formattedContent (fetch : String → Option String)
    (files : List FlatFileRecord) : String :=
  String.intercalate "---\n\n" ((renderedRecords fetch files).map renderBlock)

/-- The failure payload text of the get-file-content handler
(src/index.ts:172). -/
def couldNotRetrieveText (path owner repo : String) : String :=
  "Could not retrieve content for " ++ path ++ " in " ++ owner ++ "/" ++ repo

/-- The success payload text of the get-file-content handler
(src/index.ts:182). -/
def fencedFileText (path content : String) : String :=
  "File: " ++ path ++ "\n\n```\n" ++ content ++ "\n```"

/-- JS truthiness test `!content` on a `string | null` value: true for `null`
and also for the empty string. -/
def isFalsyStr : Option String → Bool
  | none => true
  | some s => s == ""

/-- The get-file-content handler (src/index.ts:163-185) after the fetch:
`if (!content)` yields the could-not-retrieve payload, otherwise the fenced
file payload; both are ordinary text responses, not protocol errors. -/
def getFileContentHandlerText (owner repo path : String)
    (content : Option String) : String :=
  if isFalsyStr content then couldNotRetrieveText path owner repo
  else fencedFileText path (content.getD "")

/-- The sorted path list built by the get-repo-structure handler
(src/index.ts:211-213): `allFiles.map(file => file.path).sort()`. -/
def repoStructurePaths (root : List GTree) : List String :=
  ((getAllFiles root).map FlatFileRecord.path).mergeSort

/-- The full text payload of the get-repo-structure handler
(src/index.ts:211-221). -/
def getRepoStructureText (owner repo : String) (root : List GTree) : String :=
  "Repository Structure for " ++ owner ++ "/" ++ repo ++ ":\n\n" ++
    String.intercalate "\n" (repoStructurePaths root)

mutual

/-- Spec-side walk (spec §4.2), defined from the spec's words: for each
TreeEntry in listing order, a file entry contributes its path and a directory
entry contributes, in place of its entry, the recursively collected paths of
its children. -/
def specFilesEntry : GTree → List String
  | .node p t _ cs =>
    if t == "file" then [p]
    else if t == "dir" then specFilesItems cs
    else []

/-- Spec-side walk over a listing. -/
def specFilesItems : List GTree → List String
  | [] => []
  | c :: cs => specFilesEntry c ++ specFilesItems cs

end

mutual

/-- Every listing call in the tree succeeds. -/
def okEntry : GTree → Bool
  | .node _ _ ok cs => ok && okItems cs

/-- Every listing call under any entry of the list succeeds. -/
def okItems : List GTree → Bool
  | [] => true
  | c :: cs => okEntry c && okItems cs

end

mutual

/-- All paths occurring in the tree, in preorder. -/
def pathsOfEntry : GTree → List String
  | .node p _ _ cs => p :: pathsOfItems cs

/-- All paths occurring under any entry of the list. -/
def pathsOfItems : List GTree → List String
  | [] => []
  | c :: cs => pathsOfEntry c ++ pathsOfItems cs

end

mutual

/-- Paths of all `file`-typed entries in the tree. -/
def filePathsEntry : GTree → List String
  | .node p t _ cs => (if t == "file" then [p] else []) ++ filePathsItems cs

/-- Paths of all `file`-typed entries under any entry of the list. -/
def filePathsItems : List GTree → List String
  | [] => []
  | c :: cs => filePathsEntry c ++ filePathsItems cs

end

mutual

/-- Paths of all `dir`-typed entries in the tree. -/
def dirPathsEntry : GTree → List String
  | .node p t _ cs => (if t == "dir" then [p] else []) ++ dirPathsItems cs

/-- Paths of all `dir`-typed entries under any entry of the list. -/
def dirPathsItems : List GTree → List String
  | [] => []
  | c :: cs => dirPathsEntry c ++ dirPathsItems cs

end

/-! Shared lemmas about the walker. -/

theorem walkItems_append (as bs : List GTree) :
    walkItems (as ++ bs) = walkItems as ++ walkItems bs := by
  induction as with
  | nil => simp [walkItems]
  | cons c cs ih => simp [walkItems, ih]

mutual

theorem walkEntry_map_path_sublist (t : GTree) :
    ((walkEntry t).map FlatFileRecord.path).Sublist (filePathsEntry t) := by
  match t with
  | .node p ty ok cs =>
    unfold walkEntry filePathsEntry
    by_cases h1 : ty == "file"
    · simp [h1]
    · by_cases h2 : ty == "dir"
      · cases ok with
        | false => simp [h1, h2]
        | true => simpa [h1, h2] using walkItems_map_path_sublist cs
      · simp [h1, h2]

theorem walkItems_map_path_sublist (ts : List GTree) :
    ((walkItems ts).map FlatFileRecord.path).Sublist (filePathsItems ts) := by
  match ts with
  | [] => simp [walkItems, filePathsItems]
  | c :: cs =>
    have h1 := walkEntry_map_path_sublist c
    have h2 := walkItems_map_path_sublist cs
    simpa [walkItems, filePathsItems] using List.Sublist.append h1 h2

end

mutual

theorem filePathsEntry_sublist (t : GTree) :
    (filePathsEntry t).Sublist (pathsOfEntry t) := by
  match t with
  | .node p ty ok cs =>
    unfold filePathsEntry pathsOfEntry
    have ih := filePathsItems_sublist cs
    by_cases h1 : ty == "file"
    · simpa [h1] using ih
    · simpa [h1] using ih.cons p

theorem filePathsItems_sublist (ts : List GTree) :
    (filePathsItems ts).Sublist (pathsOfItems ts) := by
  match ts with
  | [] => simp [filePathsItems, pathsOfItems]
  | c :: cs =>
    simpa [filePathsItems, pathsOfItems] using
      List.Sublist.append (filePathsEntry_sublist c) (filePathsItems_sublist cs)

end

mutual

theorem count_file_dir_entry (p : String) (t : GTree) :
    (filePathsEntry t).count p + (dirPathsEntry t).count p ≤ (pathsOfEntry t).count p := by
  match t with
  | .node q ty ok cs =>
    unfold filePathsEntry dirPathsEntry pathsOfEntry
    have ih := count_file_dir_items p cs
    by_cases h1 : ty == "file"
    · have h2 : (ty == "dir") = false := by
        rw [beq_iff_eq] at h1
        subst h1
        decide
      by_cases hb : (p == q) = true <;>
        simp [h1, h2, hb, List.count_append, List.count_cons] <;> omega
    · by_cases h2 : ty == "dir" <;> by_cases hb : (p == q) = true <;>
        simp [h1, h2, hb, List.count_append, List.count_cons] <;> omega

theorem count_file_dir_items (p : String) (ts : List GTree) :
    (filePathsItems ts).count p + (dirPathsItems ts).count p ≤ (pathsOfItems ts).count p := by
  match ts with
  | [] => simp [filePathsItems, dirPathsItems, pathsOfItems]
  | c :: cs =>
    have h1 := count_file_dir_entry p c
    have h2 := count_file_dir_items p cs
    simp only [filePathsItems, dirPathsItems, pathsOfItems, List.count_append]
    omega

end

mutual

theorem walkEntry_types (t : GTree) : ∀ r ∈ walkEntry t, r.type = "file" := by
  match t with
  | .node p ty ok cs =>
    unfold walkEntry
    by_cases h1 : ty == "file"
    · simp [h1]
    · by_cases h2 : ty == "dir"
      · cases ok with
        | false => simp [h1, h2]
        | true => simpa [h1, h2] using walkItems_types cs
      · simp [h1, h2]

theorem walkItems_types (ts : List GTree) : ∀ r ∈ walkItems ts, r.type = "file" := by
  match ts with
  | [] => simp [walkItems]
  | c :: cs =>
    have h1 := walkEntry_types c
    have h2 := walkItems_types cs
    intro r hr
    rcases List.mem_append.mp (by simpa [walkItems] using hr) with h | h
    · exact h1 r h
    · exact h2 r h

end

mutual

theorem walkEntry_spec_eq (t : GTree) (h : okEntry t = true) :
    (walkEntry t).map FlatFileRecord.path = specFilesEntry t := by
  match t with
  | .node p ty ok cs =>
    unfold walkEntry specFilesEntry
    unfold okEntry at h
    have hok : ok = true := by
      cases ok
      · simp at h
      · rfl
    have hcs : okItems cs = true := by
      cases hx : okItems cs
      · rw [hx] at h
        simp at h
      · rfl
    by_cases h1 : ty == "file"
    · simp [h1]
    · by_cases h2 : ty == "dir"
      · simpa [h1, h2, hok] using walkItems_spec_eq cs hcs
      · simp [h1, h2]

theorem walkItems_spec_eq (ts : List GTree) (h : okItems ts = true) :
    (walkItems ts).map FlatFileRecord.path = specFilesItems ts := by
  match ts with
  | [] => simp [walkItems, specFilesItems]
  | c :: cs =>
    unfold okItems at h
    have hc : okEntry c = true := by
      cases hx : okEntry c
      · rw [hx] at h
        simp at h
      · rfl
    have hcs : okItems cs = true := by
      cases hx : okItems cs
      · rw [hx] at h
        simp at h
      · rfl
    simp [walkItems, specFilesItems, walkEntry_spec_eq c hc, walkItems_spec_eq cs hcs]

end

theorem file_dir_paths_disjoint (root : List GTree)
    (hnd : (pathsOfItems root).Nodup) :
    ∀ p ∈ filePathsItems root, p ∉ dirPathsItems root := by
  intro p hf hd
  have h1 : 0 < (filePathsItems root).count p := List.count_pos_iff.mpr hf
  have h2 : 0 < (dirPathsItems root).count p := List.count_pos_iff.mpr hd
  have h3 := count_file_dir_items p root
  have h4 := (List.nodup_iff_count_le_one.mp hnd) p
  omega

/-! Helper lemmas for the filter and the handler payloads. -/

theorem hasSub_singleton (l : List Char) (c : Char) :
    hasSub l [c] = l.any (fun a => a == c) := by
  induction l with
  | nil => rfl
  | cons a as ih => simp [hasSub, hasPre, ih]

theorem splitDots_no_dot (l : List Char) (h : '.' ∉ l) :
    splitDots l = [l] := by
  induction l with
  | nil => rfl
  | cons c cs ih =>
    have hc : ¬c = '.' := fun hx => h (hx ▸ List.mem_cons_self c cs)
    have hcs : '.' ∉ cs := fun hx => h (List.mem_cons_of_mem c hx)
    simp [splitDots, hc, ih hcs]

theorem couldNot_ne_fenced (p1 o r p2 c : String) :
    couldNotRetrieveText p1 o r ≠ fencedFileText p2 c := by
  intro h
  simp only [couldNotRetrieveText, fencedFileText] at h
  have h2 := congrArg (fun s => s.data.head?) h
  simp only [String.data_append] at h2
  simp only [List.cons_append, List.head?] at h2
  exact absurd h2 (by decide)

/-! The claim theorems. -/

/-- C1: over any remote tree whose listing calls all succeed and whose entry
paths are pairwise distinct (the guarantee the remote API provides),
`getAllFiles` returns exactly the file paths reachable from the root, in the
spec's depth-first pre-order, with no duplicates, only `file`-typed records,
and with no directory path in the output. -/
theorem getAllFiles_walk_correct (root : List GTree)
    (hok : okItems root = true) (hnd : (pathsOfItems root).Nodup) :
    (getAllFiles root).map FlatFileRecord.path = specFilesItems root ∧
    ((getAllFiles root).map FlatFileRecord.path).Nodup ∧
    (∀ r ∈ getAllFiles root, r.type = "file") ∧
    (∀ p ∈ (getAllFiles root).map FlatFileRecord.path, p ∉ dirPathsItems root) := by
  simp only [getAllFiles]
  refine ⟨walkItems_spec_eq root hok, ?_, walkItems_types root, ?_⟩
  · exact List.Nodup.sublist
      ((walkItems_map_path_sublist root).trans (filePathsItems_sublist root)) hnd
  · intro p hp
    exact file_dir_paths_disjoint root hnd p ((walkItems_map_path_sublist root).subset hp)

/-- C2 counterexample: the path `"md"` contains no dot, yet with
`fileExtensions = ["md"]` the filter retains it, because
`path.split('.').pop() || ''` on a dotless path yields the whole path, not the
empty string. -/
theorem extension_filter_dotless_counterexample :
    includesStr "md" "." = false ∧
    extOf "md" = "md" ∧
    keepFile [] ["md"] "md" = true := by decide

/-- C2 (amended): with non-empty `fileExtensions` and no exclude-path hit, a
file is retained iff the final dot-separated segment of its path is listed,
where the final segment of a dotless path is the whole path itself (so a
dotless path is excluded exactly when its whole path string is not listed,
rather than always). -/
theorem extension_filter_final_segment (exts : List String) (p : String)
    (h : exts ≠ []) :
    (keepFile [] exts p = true ↔ extOf p ∈ exts) ∧
    (includesStr p "." = false → extOf p = p) := by
  constructor
  · have hl : 0 < exts.length := List.length_pos.mpr h
    simp [keepFile, hl]
  · intro hnd
    have h1 : '.' ∉ p.data := by
      rw [includesStr, show ".".data = ['.'] from rfl, hasSub_singleton] at hnd
      intro hx
      have := List.any_eq_false.mp hnd '.' hx
      simp at this
    simp [extOf, splitDots_no_dot p.data h1]

/-- C3: the filter-and-truncate step of get-repo-context returns at most
`maxFiles` records, and exactly the first `maxFiles` survivors of the filter
in traversal order: it equals the `take` of the filtered list, of which it is
an initial segment. -/
theorem selectFiles_prefix_of_filter (files : List FlatFileRecord) (N : Nat)
    (exts excl : List String) :
    (selectFiles files N exts excl).length ≤ N ∧
    selectFiles files N exts excl
      = (files.filter fun f => keepFile excl exts f.path).take N ∧
    ∃ rest, (files.filter fun f => keepFile excl exts f.path)
      = selectFiles files N exts excl ++ rest := by
  refine ⟨List.length_take_le N _, rfl,
    (files.filter fun f => keepFile excl exts f.path).drop N, ?_⟩
  exact (List.take_append_drop N (files.filter fun f => keepFile excl exts f.path)).symm

/-- C4: with the default empty `fileExtensions`, the get-repo-context filter
rejects a file iff its path contains one of `excludePaths` as a substring
(anywhere in the string); and for any `fileExtensions`, no record that reaches
rendering has a path containing one of `excludePaths` as a substring. -/
theorem excludePaths_substring_filter (files : List FlatFileRecord)
    (excl : List String) (N : Nat) (fetch : String → Option String)
    (path : String) (exts : List String) :
    (keepFile excl [] path = false
        ↔ excl.any (fun e => includesStr path e) = true) ∧
    (∀ r ∈ renderedRecords fetch (selectFiles files N exts excl),
      ∀ e ∈ excl, includesStr r.path e = false) := by
  constructor
  · by_cases hx : excl.any (fun e => includesStr path e) = true <;>
      simp [keepFile, hx]
  · intro r hr e he
    simp only [renderedRecords, fetchContents, List.mem_filter, List.mem_map] at hr
    obtain ⟨⟨f, hf, rfl⟩, -⟩ := hr
    have hf2 : f ∈ selectFiles files N exts excl := hf.1
    have hf3 : f ∈ files.filter fun g => keepFile excl exts g.path :=
      List.take_subset N _ (by simpa [selectFiles] using hf2)
    have hk : keepFile excl exts f.path = true := (List.mem_filter.mp hf3).2
    have hany : excl.any (fun e => includesStr f.path e) = false := by
      by_cases hx : excl.any (fun e => includesStr f.path e) = true
      · rw [keepFile, if_pos hx] at hk
        exact absurd hk (by decide)
      · simpa using hx
    simpa using List.any_eq_false.mp hany e he

/-- C5 counterexample: an empty-string content is present (not absent), yet
`if (!content)` treats it as falsy, so the get-file-content handler returns
the could-not-retrieve payload, not the fenced file payload the claim
promises for present content. -/
theorem getFileContent_empty_falsy_counterexample :
    (some "" ≠ (none : Option String)) ∧
    getFileContentHandlerText "o" "r" "p" (some "")
      = couldNotRetrieveText "p" "o" "r" ∧
    getFileContentHandlerText "o" "r" "p" (some "") ≠ fencedFileText "p" "" := by
  refine ⟨by decide, rfl, ?_⟩
  intro h
  exact couldNot_ne_fenced "p" "o" "r" "p" "" (h ▸ rfl)

/-- C5 (amended): the get-file-content handler returns the could-not-retrieve
text payload exactly when the fetched content is absent or the empty string,
and any present non-empty content is returned in the fenced `File:` format;
the two cases exhaust the non-throwing behaviour. -/
theorem getFileContentHandler_cases (owner repo path : String)
    (content : Option String) :
    (getFileContentHandlerText owner repo path content
        = couldNotRetrieveText path owner repo
      ↔ (content = none ∨ content = some "")) ∧
    (∀ c, content = some c → c ≠ "" →
      getFileContentHandlerText owner repo path content = fencedFileText path c) := by
  constructor
  · constructor
    · intro h
      cases content with
      | none => exact Or.inl rfl
      | some s =>
        by_cases hs : s = ""
        · exact Or.inr (by rw [hs])
        · exfalso
          have hval : getFileContentHandlerText owner repo path (some s)
              = fencedFileText path s := by
            simp [getFileContentHandlerText, isFalsyStr, hs]
          rw [hval] at h
          exact couldNot_ne_fenced path owner repo path s h.symm
    · rintro (rfl | rfl) <;> rfl
  · rintro c rfl hc
    simp [getFileContentHandlerText, isFalsyStr, hc]

/-- C6: a response that carries content with a declared encoding other than
base64 makes `getFileContent` return `null`, and the get-file-content handler
then returns the could-not-retrieve text payload — an ordinary text response,
not an error signal. -/
theorem getFileContent_non_base64 (decode : String → String)
    (remote : String → String → String → RemoteResult)
    (owner repo path : String) (entry : RawEntry) (c e : String)
    (hresp : remote owner repo path = .ok (.entity entry (some c) (some e)))
    (henc : e ≠ "base64") :
    getFileContent decode remote owner repo path = none ∧
    getFileContentHandlerText owner repo path
        (getFileContent decode remote owner repo path)
      = couldNotRetrieveText path owner repo := by
  have h0 : getFileContent decode remote owner repo path = none := by
    simp [getFileContent, hresp, henc]
  refine ⟨h0, ?_⟩
  rw [h0]
  rfl

/-- C7: when the remote call throws, `getRepoContents` returns the empty
listing — the very value it returns for an actually-empty directory listing,
so callers cannot tell the two apart. -/
theorem getRepoContents_soft_fail
    (remote : String → String → String → RemoteResult)
    (owner repo path : String) (h : remote owner repo path = .err) :
    getRepoContents remote owner repo path = [] ∧
    getRepoContents remote owner repo path
      = getRepoContents (fun _ _ _ => .ok (.listing [])) owner repo path := by
  simp [getRepoContents, h]

/-- C8: a failed listing call on one subdirectory only collapses that
subtree's contribution to empty: the walk of the siblings before and after it
is unchanged, and with the same subtree succeeding the only difference is the
subtree's own contribution appearing in place. -/
theorem walk_failed_subtree_isolated (p : String) (cs pre post : List GTree) :
    walkItems (pre ++ GTree.node p "dir" false cs :: post)
      = walkItems pre ++ walkItems post ∧
    walkItems (pre ++ GTree.node p "dir" true cs :: post)
      = walkItems pre ++ walkItems cs ++ walkItems post := by
  constructor <;> simp [walkItems_append, walkItems, walkEntry]

/-- C9: get-repo-structure applies no filtering and no truncation: its path
list is a permutation of the full walker output (in particular every walked
path, `node_modules` ones included, occurs in it), it is sorted
lexicographically, and the payload is the header followed by the
newline-join of that sorted list. -/
theorem getRepoStructure_sorted_unfiltered (owner repo : String)
    (root : List GTree) :
    (repoStructurePaths root).Perm ((getAllFiles root).map FlatFileRecord.path) ∧
    List.Sorted (· ≤ ·) (repoStructurePaths root) ∧
    (∀ p ∈ (getAllFiles root).map FlatFileRecord.path,
      p ∈ repoStructurePaths root) ∧
    getRepoStructureText owner repo root
      = "Repository Structure for " ++ owner ++ "/" ++ repo ++ ":\n\n" ++
          String.intercalate "\n" (repoStructurePaths root) := by
  refine ⟨List.mergeSort_perm _ _, List.sorted_mergeSort' _, ?_, rfl⟩
  intro p hp
  exact (List.mergeSort_perm _ _).mem_iff.mpr hp

/-- C10: the walker appends exactly the `file`-typed entries and recurses
exactly into the `dir`-typed entries; an entry of any other declared type
contributes nothing, so a listing with such an entry walks the same as the
listing without it. -/
theorem walk_type_dispatch (p ty : String) (ok : Bool) (cs pre post : List GTree)
    (h1 : ty ≠ "file") (h2 : ty ≠ "dir") :
    walkEntry (GTree.node p ty ok cs) = [] ∧
    getAllFiles (pre ++ GTree.node p ty ok cs :: post)
      = getAllFiles (pre ++ post) ∧
    walkEntry (GTree.node p "file" ok cs) = [⟨p, "file"⟩] ∧
    walkEntry (GTree.node p "dir" true cs) = walkItems cs := by
  have hz : walkEntry (GTree.node p ty ok cs) = [] := by
    simp [walkEntry, h1, h2]
  refine ⟨hz, ?_, by simp [walkEntry], by simp [walkEntry]⟩
  simp [getAllFiles, walkItems_append, walkItems, hz]

/-! Concrete inputs for the witnesses, taken from the scenario of spec §8. -/

/-- The concrete remote tree of spec §8: `src/` with `a.ts` and `b.js`,
`node_modules/` with `c.js`, and `README.md`. -/
def exampleRoot : List GTree :=
  [GTree.node "src" "dir" true
    [GTree.node "src/a.ts" "file" true [], GTree.node "src/b.js" "file" true []],
   GTree.node "node_modules" "dir" true
    [GTree.node "node_modules/c.js" "file" true []],
   GTree.node "README.md" "file" true []]

/-- The flat file list the walker produces on `exampleRoot`. -/
def exampleFiles : List FlatFileRecord :=
  [⟨"src/a.ts", "file"⟩, ⟨"src/b.js", "file"⟩,
   ⟨"node_modules/c.js", "file"⟩, ⟨"README.md", "file"⟩]

/-- A remote that answers every path with a non-base64 encoded file body. -/
def exampleRemote : String → String → String → RemoteResult :=
  fun _ _ _ => .ok (.entity ⟨"p.txt", "file"⟩ (some "aGVsbG8=") (some "utf-8"))

/-- A remote whose every call throws. -/
def failingRemote : String → String → String → RemoteResult :=
  fun _ _ _ => .err

/-! Witnesses: each claim theorem applied at a concrete input. -/

/-- C1 witness: the walk theorem at the spec §8 tree. -/
theorem getAllFiles_walk_correct_witness :
    okItems exampleRoot = true ∧ (pathsOfItems exampleRoot).Nodup ∧
    ((getAllFiles exampleRoot).map FlatFileRecord.path = specFilesItems exampleRoot ∧
      ((getAllFiles exampleRoot).map FlatFileRecord.path).Nodup ∧
      (∀ r ∈ getAllFiles exampleRoot, r.type = "file") ∧
      (∀ p ∈ (getAllFiles exampleRoot).map FlatFileRecord.path,
        p ∉ dirPathsItems exampleRoot)) :=
  ⟨by decide, by decide, getAllFiles_walk_correct exampleRoot (by decide) (by decide)⟩

/-- C2 witness: the amended extension-filter theorem at `["md"]` and
`"README.md"`. -/
theorem extension_filter_final_segment_witness :
    (["md"] ≠ ([] : List String)) ∧
    ((keepFile [] ["md"] "README.md" = true ↔ extOf "README.md" ∈ ["md"]) ∧
      (includesStr "README.md" "." = false → extOf "README.md" = "README.md")) :=
  ⟨by decide, extension_filter_final_segment ["md"] "README.md" (by decide)⟩

/-- C3 witness: filter-and-truncate at the spec §8 file list with
`maxFiles = 2`. -/
theorem selectFiles_prefix_of_filter_witness :
    (selectFiles exampleFiles 2 ["ts", "md"] ["node_modules"]).length ≤ 2 ∧
    selectFiles exampleFiles 2 ["ts", "md"] ["node_modules"]
      = (exampleFiles.filter fun f =>
          keepFile ["node_modules"] ["ts", "md"] f.path).take 2 ∧
    ∃ rest, (exampleFiles.filter fun f =>
        keepFile ["node_modules"] ["ts", "md"] f.path)
      = selectFiles exampleFiles 2 ["ts", "md"] ["node_modules"] ++ rest :=
  selectFiles_prefix_of_filter exampleFiles 2 ["ts", "md"] ["node_modules"]

/-- C4 witness: the exclude-path theorem at the spec §8 file list with
`excludePaths = ["node_modules"]`. -/
theorem excludePaths_substring_filter_witness :
    (keepFile ["node_modules"] [] "node_modules/c.js" = false
        ↔ (["node_modules"].any
            fun e => includesStr "node_modules/c.js" e) = true) ∧
    (∀ r ∈ renderedRecords (fun _ => some "text")
        (selectFiles exampleFiles 10 [] ["node_modules"]),
      ∀ e ∈ ["node_modules"], includesStr r.path e = false) :=
  excludePaths_substring_filter exampleFiles ["node_modules"] 10
    (fun _ => some "text") "node_modules/c.js" []

/-- C5 witness: the amended handler theorem at a present non-empty content. -/
theorem getFileContentHandler_cases_witness :
    ((getFileContentHandlerText "o" "r" "p" (some "hello")
        = couldNotRetrieveText "p" "o" "r"
      ↔ (some "hello" = none ∨ some "hello" = some "")) ∧
     (∀ c, some "hello" = some c → c ≠ "" →
        getFileContentHandlerText "o" "r" "p" (some "hello")
          = fencedFileText "p" c)) :=
  getFileContentHandler_cases "o" "r" "p" (some "hello")

/-- C6 witness: a remote declaring `utf-8` encoding yields `null` content and
the could-not-retrieve payload. -/
theorem getFileContent_non_base64_witness :
    (exampleRemote "o" "r" "p.txt"
        = .ok (.entity ⟨"p.txt", "file"⟩ (some "aGVsbG8=") (some "utf-8"))) ∧
    ("utf-8" ≠ "base64") ∧
    (getFileContent id exampleRemote "o" "r" "p.txt" = none ∧
      getFileContentHandlerText "o" "r" "p.txt"
          (getFileContent id exampleRemote "o" "r" "p.txt")
        = couldNotRetrieveText "p.txt" "o" "r") :=
  ⟨rfl, by decide,
    getFileContent_non_base64 id exampleRemote "o" "r" "p.txt"
      ⟨"p.txt", "file"⟩ "aGVsbG8=" "utf-8" rfl (by decide)⟩

/-- C7 witness: a throwing remote call yields the empty listing. -/
theorem getRepoContents_soft_fail_witness :
    getRepoContents failingRemote "o" "r" "" = [] ∧
    getRepoContents failingRemote "o" "r" ""
      = getRepoContents (fun _ _ _ => .ok (.listing [])) "o" "r" "" :=
  getRepoContents_soft_fail failingRemote "o" "r" "" rfl

/-- C8 witness: a failing middle subdirectory leaves the two sibling files
intact. -/
theorem walk_failed_subtree_isolated_witness :
    walkItems ([GTree.node "a.txt" "file" true []]
        ++ GTree.node "bad" "dir" false [GTree.node "bad/x.txt" "file" true []]
          :: [GTree.node "b.txt" "file" true []])
      = walkItems [GTree.node "a.txt" "file" true []]
        ++ walkItems [GTree.node "b.txt" "file" true []] ∧
    walkItems ([GTree.node "a.txt" "file" true []]
        ++ GTree.node "bad" "dir" true [GTree.node "bad/x.txt" "file" true []]
          :: [GTree.node "b.txt" "file" true []])
      = walkItems [GTree.node "a.txt" "file" true []]
        ++ walkItems [GTree.node "bad/x.txt" "file" true []]
        ++ walkItems [GTree.node "b.txt" "file" true []] :=
  walk_failed_subtree_isolated "bad" [GTree.node "bad/x.txt" "file" true []]
    [GTree.node "a.txt" "file" true []] [GTree.node "b.txt" "file" true []]

/-- C9 witness: the structure theorem at the spec §8 tree. -/
theorem getRepoStructure_sorted_unfiltered_witness :
    (repoStructurePaths exampleRoot).Perm
        ((getAllFiles exampleRoot).map FlatFileRecord.path) ∧
    List.Sorted (· ≤ ·) (repoStructurePaths exampleRoot) ∧
    (∀ p ∈ (getAllFiles exampleRoot).map FlatFileRecord.path,
      p ∈ repoStructurePaths exampleRoot) ∧
    getRepoStructureText "o" "r" exampleRoot
      = "Repository Structure for " ++ "o" ++ "/" ++ "r" ++ ":\n\n" ++
          String.intercalate "\n" (repoStructurePaths exampleRoot) :=
  getRepoStructure_sorted_unfiltered "o" "r" exampleRoot

/-- C10 witness: a `symlink`-typed entry contributes nothing to the walk. -/
theorem walk_type_dispatch_witness :
    walkEntry (GTree.node "link" "symlink" true []) = [] ∧
    getAllFiles ([GTree.node "a.txt" "file" true []]
        ++ GTree.node "link" "symlink" true [] :: [GTree.node "b.txt" "file" true []])
      = getAllFiles ([GTree.node "a.txt" "file" true []]
          ++ [GTree.node "b.txt" "file" true []]) ∧
    walkEntry (GTree.node "link" "file" true []) = [⟨"link", "file"⟩] ∧
    walkEntry (GTree.node "link" "dir" true []) = walkItems [] :=
  walk_type_dispatch "link" "symlink" true []
    [GTree.node "a.txt" "file" true []] [GTree.node "b.txt" "file" true []]
    (by decide) (by decide)

end GhMcp
